import Mathlib

/-!
Verification of the CoastSnap image-processing pipeline
(`coastsnap-web/backend/imageprocessing`): camera pose calibration and
rectification (`rectification.py`), feature-based registration
(`registration.py`), and shoreline extraction (`slmapping.py`).

Shallow embedding conventions:
* numpy float arrays are modelled over `ℝ` (or `ℚ` where every value the
  code manipulates is rational, so that statements can be decided);
* numpy NaN payloads are modelled with `Option` (`none` = NaN);
* fallible steps return `Option`;
* `np.argmin` / `np.argmax` return the first extremal index, which matches
  `List.argmin` / the recursive `argmaxIdx` below.
-/

open Real

/-! ### Generic helpers -/

/-- Rounding half to even over `ℚ`, the convention of `np.around` and
`np.round`. -/
def roundHalfEven (q : ℚ) : ℤ :=
  let f := ⌊q⌋
  if q - f < 1/2 then f
  else if q - f > 1/2 then f + 1
  else if Even f then f else f + 1

/-- Rounding half to even over `ℝ`, the convention of `np.round`. -/
noncomputable def roundHalfEvenR (x : ℝ) : ℤ :=
  let f := ⌊x⌋
  if x - f < 1/2 then f
  else if x - f > 1/2 then f + 1
  else if Even f then f else f + 1

/-- Clamping an index into `[lo, hi]`; models `np.ravel_multi_index` with
`mode = clip`. -/
def clipIdx (i lo hi : ℤ) : ℤ := min (max i lo) hi

/-- First index of the maximal entry of a list, the convention of
`np.argmax` (returns `0` on `[]`, which in numpy is an error). -/
def argmaxIdx : List ℚ → ℕ
  | [] => 0
  | [_] => 0
  | x :: y :: xs =>
    let j := argmaxIdx (y :: xs)
    if (y :: xs).getD j 0 ≤ x then 0 else j + 1

theorem argmaxIdx_lt_length : ∀ l : List ℚ, l ≠ [] → argmaxIdx l < l.length
  | [], h => absurd rfl h
  | [_], _ => Nat.zero_lt_one
  | x :: y :: xs, _ => by
    have ih := argmaxIdx_lt_length (y :: xs) (by simp)
    simp only [argmaxIdx]
    split
    · simp
    · simpa [List.length_cons] using Nat.succ_lt_succ ih

theorem argmaxIdx_is_max : ∀ (l : List ℚ), ∀ i < l.length,
    l.getD i 0 ≤ l.getD (argmaxIdx l) 0
  | [], i, h => by simp at h
  | [a], i, h => by
    have : i = 0 := by simpa using Nat.lt_one_iff.mp (by simpa using h)
    subst this
    simp [argmaxIdx]
  | x :: y :: xs, i, h => by
    have ih := argmaxIdx_is_max (y :: xs)
    have hlen := argmaxIdx_lt_length (y :: xs) (by simp)
    simp only [argmaxIdx]
    split
    case isTrue hle =>
      match i, h with
      | 0, _ => simp
      | (i + 1), h =>
        have := ih i (by simpa using Nat.lt_of_succ_lt_succ h)
        simp only [List.getD_cons_succ, List.getD_cons_zero]
        exact le_trans this hle
    case isFalse hgt =>
      match i, h with
      | 0, _ =>
        simp only [List.getD_cons_succ, List.getD_cons_zero]
        exact le_of_not_le (by simpa using hgt)
      | (i + 1), h =>
        have := ih i (by simpa using Nat.lt_of_succ_lt_succ h)
        simpa using this

/-! ### Rotation matrix (`rectification.py`, `angles2R`, lines 63 to 76)

The source fills a 3 by 3 array entry by entry from the azimuth `a`,
tilt `t` and roll `s`. -/

noncomputable def angles2R (a t s : ℝ) : Matrix (Fin 3) (Fin 3) ℝ :=
  !![Real.cos a * Real.cos s + Real.sin a * Real.cos t * Real.sin s,
     -Real.cos s * Real.sin a + Real.sin s * Real.cos t * Real.cos a,
     Real.sin s * Real.sin t;
     -Real.sin s * Real.cos a + Real.cos s * Real.cos t * Real.sin a,
     Real.sin s * Real.sin a + Real.cos s * Real.cos t * Real.cos a,
     Real.cos s * Real.sin t;
     Real.sin t * Real.sin a,
     Real.sin t * Real.cos a,
     -Real.cos t]

/-- C1: for all angles a (azimuth), t (tilt), s (roll), the rotation matrix
built by the pose solver equals exactly the convention of the spec:
R00 = cos a cos s + sin a cos t sin s, R01 = -cos s sin a + sin s cos t cos a,
R02 = sin s sin t, R10 = -sin s cos a + cos s cos t sin a,
R11 = sin s sin a + cos s cos t cos a, R12 = cos s sin t,
R20 = sin t sin a, R21 = sin t cos a, R22 = -cos t. -/
theorem C1_rotation_convention (a t s : ℝ) :
    angles2R a t s 0 0 = Real.cos a * Real.cos s + Real.sin a * Real.cos t * Real.sin s ∧
    angles2R a t s 0 1 = -Real.cos s * Real.sin a + Real.sin s * Real.cos t * Real.cos a ∧
    angles2R a t s 0 2 = Real.sin s * Real.sin t ∧
    angles2R a t s 1 0 = -Real.sin s * Real.cos a + Real.cos s * Real.cos t * Real.sin a ∧
    angles2R a t s 1 1 = Real.sin s * Real.sin a + Real.cos s * Real.cos t * Real.cos a ∧
    angles2R a t s 1 2 = Real.cos s * Real.sin t ∧
    angles2R a t s 2 0 = Real.sin t * Real.sin a ∧
    angles2R a t s 2 1 = Real.sin t * Real.cos a ∧
    angles2R a t s 2 2 = -Real.cos t :=
  ⟨rfl, rfl, rfl, rfl, rfl, rfl, rfl, rfl, rfl⟩

/-! ### Registration (`registration.py`)

`image_registration` (lines 78 to 109): if fewer than 4 keypoints survive
mask filtering the photo is skipped (`return None`, no exception); otherwise
a homography is estimated (`cv2.findHomography`, external, may fail, again
a skip) and the photo is warped.  The homography estimator and the warp are
external OpenCV collaborators, abstracted as parameters. -/

def image_registration {P H Img : Type} (kps1 kps0 : List P)
    (findHomography : List P → List P → Option H) (warp : H → Img) :
    Option Img :=
  if kps1.length < 4 ∨ kps0.length < 4 then none
  else
    match findHomography kps1 kps0 with
    | none => none
    | some h => some (warp h)

/-- C7: for every photo whose retained (mask-filtered) correspondences
number fewer than 4, registration rejects the photo with a skip outcome
(returns `none`) before touching the homography estimator or the warp, so
no exception can be raised by them and no aligned image is produced. -/
theorem C7_few_matches_skip {P H Img : Type} (kps1 kps0 : List P)
    (findHomography : List P → List P → Option H) (warp : H → Img)
    (h : kps1.length < 4 ∨ kps0.length < 4) :
    image_registration kps1 kps0 findHomography warp = none := by
  simp only [image_registration, if_pos h]

theorem C7_few_matches_skip_witness :
    (([(0, 0), (1, 1), (2, 2)] : List (ℚ × ℚ)).length < 4 ∨
      ([(0, 0), (1, 1), (2, 2)] : List (ℚ × ℚ)).length < 4) ∧
    image_registration [(0, 0), (1, 1), (2, 2)] [(0, 0), (1, 1), (2, 2)]
      (fun _ _ => some (0 : ℚ)) (fun h => h) = none :=
  ⟨Or.inl (by decide),
    C7_few_matches_skip _ _ _ _ (Or.inl (by decide))⟩

/-! ### Pose solving validation gate (`rectification.py`, lines 130 to 151)

Before the focal-length search, `rectify_image` performs a single
GCP-related validation: the pixel-coordinate array must have shape
`(2, nGCP)` (line 134, `raise ValueError` otherwise).  There is no check
that `nGCP >= 4`.  The subsequent `scipy.optimize.curve_fit` call (external)
raises when the number of residuals `2 * nGCP` is smaller than the number of
fitted parameters (3 angles); with `2 * nGCP >= 3` the fit proceeds and a
pose is produced whenever the optimizer converges.  `rectifyPoseGate`
returns `true` when a run with the given UV shape and GCP count passes
every count-dependent validation and reaches the fitting stage. -/

def rectifyPoseGate (uvShape : ℕ × ℕ) (nGCP : ℕ) : Bool :=
  if uvShape ≠ (2, nGCP) then false
  else if 2 * nGCP < 3 then false
  else true

/-- C6 counterexample: a run with exactly 3 usable GCP correspondences (UV
shape `(2, 3)`) passes every validation in the pose solver and reaches the
fitting stage, so fewer than 4 usable GCPs is not fatal. -/
theorem C6_three_gcps_not_fatal : rectifyPoseGate (2, 3) 3 = true := by decide

/-- C6 (amended): pose solving validates only that the UV array has shape
`(2, nGCP)`; a correctly shaped run proceeds to fit a pose if and only if
`nGCP ≥ 2` (scipy refuses fewer residuals than the 3 fitted parameters),
and any shape mismatch aborts with an error. -/
theorem C6_pose_gate (n : ℕ) :
    (rectifyPoseGate (2, n) n = decide (2 ≤ n)) ∧
    (∀ s : ℕ × ℕ, s ≠ (2, n) → rectifyPoseGate s n = false) := by
  constructor
  · by_cases h : 2 ≤ n
    · have h3 : ¬ 2 * n < 3 := by omega
      simp [rectifyPoseGate, h, h3]
    · have h3 : 2 * n < 3 := by omega
      simp [rectifyPoseGate, h, h3]
  · intro s hs
    simp [rectifyPoseGate, hs]

theorem C6_pose_gate_witness :
    (rectifyPoseGate (2, 5) 5 = decide (2 ≤ 5)) ∧
    ((3, 5) : ℕ × ℕ) ≠ (2, 5) ∧ rectifyPoseGate (3, 5) 5 = false :=
  ⟨(C6_pose_gate 5).1, by decide, (C6_pose_gate 5).2 (3, 5) (by decide)⟩

/-! ### Shoreline classification threshold (`slmapping.py`, lines 82 to 96)

The pooled valid red-minus-blue samples are fed to a kernel density
estimate (scipy, external) evaluated on 400 locations, and to
`threshold_otsu` (skimage, external).  The code then takes
`I1 = argwhere(pdf_locs < otsu)`, `J1 = argmax(pdf_values[I1])`,
`RmBwet = pdf_locs[I1[J1]]` (and symmetrically with `>` for the dry side)
and sets `thresh = 1/3 * RmBwet + 2/3 * RmBdry`.  The density values and
the Otsu anchor are inputs here; the index bookkeeping below is the
code under verification. -/

def belowIdx (locs : List ℚ) (t : ℚ) : List ℕ :=
  (List.range locs.length).filter fun i => locs.getD i 0 < t

def aboveIdx (locs : List ℚ) (t : ℚ) : List ℕ :=
  (List.range locs.length).filter fun i => t < locs.getD i 0

/-- Location of the first density maximum over a given index set, as the
code computes it: `pdf_locs[I[argmax(pdf_values[I])]]`. -/
def peakLoc (locs vals : List ℚ) (I : List ℕ) : ℚ :=
  locs.getD (I.getD (argmaxIdx (I.map fun i => vals.getD i 0)) 0) 0

def computeThresh (locs vals : List ℚ) (otsu : ℚ) : ℚ :=
  1/3 * peakLoc locs vals (belowIdx locs otsu) +
    2/3 * peakLoc locs vals (aboveIdx locs otsu)

theorem mem_belowIdx {locs : List ℚ} {t : ℚ} {i : ℕ} :
    i ∈ belowIdx locs t ↔ i < locs.length ∧ locs.getD i 0 < t := by
  simp [belowIdx, List.mem_filter, List.mem_range]

theorem mem_aboveIdx {locs : List ℚ} {t : ℚ} {i : ℕ} :
    i ∈ aboveIdx locs t ↔ i < locs.length ∧ t < locs.getD i 0 := by
  simp [aboveIdx, List.mem_filter, List.mem_range]

theorem peakLoc_spec (locs vals : List ℚ) (I : List ℕ) (hne : I ≠ []) :
    ∃ j ∈ I, peakLoc locs vals I = locs.getD j 0 ∧
      ∀ i ∈ I, vals.getD i 0 ≤ vals.getD j 0 := by
  set M : List ℚ := I.map fun i => vals.getD i 0 with hM
  have hMne : M ≠ [] := by simpa [hM] using hne
  have hlenM : M.length = I.length := by simp [hM]
  have hJ : argmaxIdx M < I.length := by
    have := argmaxIdx_lt_length M hMne
    omega
  refine ⟨I.getD (argmaxIdx M) 0, ?_, ?_, ?_⟩
  · rw [List.getD_eq_getElem _ _ hJ]
    exact List.getElem_mem hJ
  · rfl
  · intro i hi
    obtain ⟨k, hk, hki⟩ := List.mem_iff_getElem.mp hi
    have h1 : M.getD k 0 = vals.getD i 0 := by
      rw [List.getD_eq_getElem _ _ (by omega : k < M.length)]
      simp [hM, hki]
    have h2 : M.getD (argmaxIdx M) 0 =
        vals.getD (I.getD (argmaxIdx M) 0) 0 := by
      rw [List.getD_eq_getElem _ _ (by omega : argmaxIdx M < M.length),
        List.getD_eq_getElem _ _ hJ]
      simp [hM]
    have := argmaxIdx_is_max M k (by omega)
    rw [h1, h2] at this
    exact this

/-- C2: for every pooled set of samples, the classification threshold
equals `1/3 * wet_peak + 2/3 * dry_peak`, where the wet peak is the
location of the density maximum over sample locations below the Otsu
anchor and the dry peak the location of the density maximum over locations
above it (first maximum on ties, as `np.argmax` returns). -/
theorem C2_threshold_formula (locs vals : List ℚ) (otsu : ℚ)
    (hb : ∃ i, i < locs.length ∧ locs.getD i 0 < otsu)
    (ha : ∃ i, i < locs.length ∧ otsu < locs.getD i 0) :
    ∃ iw idry, iw < locs.length ∧ idry < locs.length ∧
      locs.getD iw 0 < otsu ∧ otsu < locs.getD idry 0 ∧
      (∀ i, i < locs.length → locs.getD i 0 < otsu →
        vals.getD i 0 ≤ vals.getD iw 0) ∧
      (∀ i, i < locs.length → otsu < locs.getD i 0 →
        vals.getD i 0 ≤ vals.getD idry 0) ∧
      computeThresh locs vals otsu =
        1/3 * locs.getD iw 0 + 2/3 * locs.getD idry 0 := by
  obtain ⟨ib, hib, hibt⟩ := hb
  obtain ⟨ia, hia, hiat⟩ := ha
  have hbne : belowIdx locs otsu ≠ [] := by
    intro h
    have : ib ∈ belowIdx locs otsu := mem_belowIdx.mpr ⟨hib, hibt⟩
    simp [h] at this
  have hane : aboveIdx locs otsu ≠ [] := by
    intro h
    have : ia ∈ aboveIdx locs otsu := mem_aboveIdx.mpr ⟨hia, hiat⟩
    simp [h] at this
  obtain ⟨jw, hjw, hjweq, hjwmax⟩ := peakLoc_spec locs vals _ hbne
  obtain ⟨jd, hjd, hjdeq, hjdmax⟩ := peakLoc_spec locs vals _ hane
  obtain ⟨hjwlt, hjwbel⟩ := mem_belowIdx.mp hjw
  obtain ⟨hjdlt, hjdabv⟩ := mem_aboveIdx.mp hjd
  refine ⟨jw, jd, hjwlt, hjdlt, hjwbel, hjdabv, ?_, ?_, ?_⟩
  · intro i hi hlt
    exact hjwmax i (mem_belowIdx.mpr ⟨hi, hlt⟩)
  · intro i hi hlt
    exact hjdmax i (mem_aboveIdx.mpr ⟨hi, hlt⟩)
  · rw [computeThresh, hjweq, hjdeq]

/-- C2 witness: locations `[-10, 0, 30]` with densities `[5, 1, 4]` and
Otsu anchor `10` have their wet peak at `-10` and dry peak at `30`, and
the computed threshold is `1/3 * (-10) + 2/3 * 30 = 50/3` (about 16.67). -/
theorem C2_threshold_formula_witness :
    (∃ i, i < ([-10, 0, 30] : List ℚ).length ∧
      ([-10, 0, 30] : List ℚ).getD i 0 < 10) ∧
    (∃ i, i < ([-10, 0, 30] : List ℚ).length ∧
      10 < ([-10, 0, 30] : List ℚ).getD i 0) ∧
    (∃ iw idry, iw < ([-10, 0, 30] : List ℚ).length ∧
      idry < ([-10, 0, 30] : List ℚ).length ∧
      ([-10, 0, 30] : List ℚ).getD iw 0 < 10 ∧
      10 < ([-10, 0, 30] : List ℚ).getD idry 0 ∧
      (∀ i, i < ([-10, 0, 30] : List ℚ).length →
        ([-10, 0, 30] : List ℚ).getD i 0 < 10 →
        ([5, 1, 4] : List ℚ).getD i 0 ≤ ([5, 1, 4] : List ℚ).getD iw 0) ∧
      (∀ i, i < ([-10, 0, 30] : List ℚ).length →
        10 < ([-10, 0, 30] : List ℚ).getD i 0 →
        ([5, 1, 4] : List ℚ).getD i 0 ≤ ([5, 1, 4] : List ℚ).getD idry 0) ∧
      computeThresh [-10, 0, 30] [5, 1, 4] 10 =
        1/3 * ([-10, 0, 30] : List ℚ).getD iw 0 +
          2/3 * ([-10, 0, 30] : List ℚ).getD idry 0) ∧
    computeThresh [-10, 0, 30] [5, 1, 4] 10 = 50/3 :=
  ⟨⟨0, by decide, by decide⟩, ⟨2, by decide, by decide⟩,
    C2_threshold_formula [-10, 0, 30] [5, 1, 4] 10
      ⟨0, by decide, by decide⟩ ⟨2, by decide, by decide⟩,
    by
      simp only [computeThresh, peakLoc, belowIdx, aboveIdx]
      norm_num [List.range_succ, List.filter, argmaxIdx]⟩

/-! ### Rectified raster cells (`rectification.py`, lines 106 to 112 and 164 to 200)

Per world-grid cell the code projects `(x, y, 0)` with `findUV6DOF`,
rounds with `np.around` (half to even), and tests the rounded `(U, V)`
against `[1, NU] x [1, NV]` (`onScreen`, `Umin = Vmin = 1`).  For good
cells, the flattened source image is sampled at the single index
`ravel_multi_index([V, U], (NV, NU), mode=clip, order=F)`, i.e. at row
`V` and column `U` clamped into range.  The accumulator `images_N` is 1
for good cells and 0 otherwise, zeros are replaced by NaN, and the output
is `(images_sumI / N).astype(np.uint8)`; `np.uint8(NaN)` yields 0 on the
supported platforms, so a cell without data is written as the byte 0. -/

def onScreen (U V Umax Vmax : ℤ) : Bool :=
  decide (1 ≤ U ∧ U ≤ Umax ∧ 1 ≤ V ∧ V ≤ Vmax)

/-- One source-pixel sample per cell: row `V`, column `U`, clamped by the
`mode = clip` flattened indexing. -/
def rectCellSample (im : ℤ → ℤ → ℕ) (NU NV U V : ℤ) : ℕ :=
  im (clipIdx V 0 (NV - 1)) (clipIdx U 0 (NU - 1))

/-- Division where the denominator may be NaN (`none`); NaN propagates. -/
def nanDiv (s : ℚ) (n : Option ℚ) : Option ℚ := n.map fun d => s / d

/-- Cast of a possibly-NaN float to `np.uint8`: NaN becomes the byte 0
(the platform behaviour the code relies on), finite values are truncated. -/
def uint8Cast : Option ℚ → ℕ
  | none => 0
  | some q => ⌊q⌋.toNat % 256

/-- Output byte of one world-grid cell given its projected (unrounded)
pixel coordinates, following lines 166 to 200 of `rectification.py`. -/
def rectCellValue (im : ℤ → ℤ → ℕ) (NU NV : ℤ) (u v : ℚ) : ℕ :=
  let U := roundHalfEven u
  let V := roundHalfEven v
  let good := onScreen U V NU NV
  let sumI : ℚ := if good then (rectCellSample im NU NV U V : ℚ) else 0
  let N : Option ℚ := if good then some 1 else none
  uint8Cast (nanDiv sumI N)

/-- C3 failing input: in a 2 by 2 image whose pixel at row 1, column 1 is
black (byte 0) and whose other pixels are 7, the cell whose projection
rounds to the on-screen pixel `(U, V) = (1, 1)` gets the output byte 0,
and the cell whose projection rounds to `(0, 0)` fails the on-screen test
yet also gets the output byte 0 through the NaN-to-uint8 cast: the
"no data" marker is indistinguishable from a black color sample in the
output raster. -/
theorem C3_nodata_indistinguishable :
    onScreen 1 1 2 2 = true ∧
    onScreen 0 0 2 2 = false ∧
    rectCellValue (fun r c => if r = 1 ∧ c = 1 then 0 else 7) 2 2 1 1 = 0 ∧
    rectCellValue (fun r c => if r = 1 ∧ c = 1 then 0 else 7) 2 2 0 0 = 0 := by
  refine ⟨by decide, by decide, ?_, ?_⟩ <;>
    · simp only [rectCellValue, roundHalfEven, onScreen, rectCellSample,
        clipIdx, nanDiv, uint8Cast]
      norm_num

/-! ### Transect-local geometry (`slmapping.py`, lines 136 to 158)

Per transect the code computes `angle = arctan2(dy, dx)` for the
landward-to-seaward direction, builds `anglemat = [[cos, -sin], [sin, cos]]`,
translates every contour point by the landward endpoint and right-multiplies
the row vectors by `anglemat`, giving local coordinates
`(dxp * cos + dyp * sin, -dxp * sin + dyp * cos)`.  `np.arctan2` is modelled
by `Complex.arg`, which satisfies the same quadrant conventions. -/

noncomputable def atan2 (y x : ℝ) : ℝ := Complex.arg ⟨x, y⟩

noncomputable def transectAngle (x1 y1 x2 y2 : ℝ) : ℝ :=
  atan2 (y2 - y1) (x2 - x1)

noncomputable def localCoords (x1 y1 x2 y2 px py : ℝ) : ℝ × ℝ :=
  ((px - x1) * Real.cos (transectAngle x1 y1 x2 y2) +
      (py - y1) * Real.sin (transectAngle x1 y1 x2 y2),
   -((px - x1) * Real.sin (transectAngle x1 y1 x2 y2)) +
      (py - y1) * Real.cos (transectAngle x1 y1 x2 y2))

/-- Transect length, `np.sqrt(np.diff(Y)**2 + np.diff(X)**2)` (line 149). -/
noncomputable def transectLen (x1 y1 x2 y2 : ℝ) : ℝ :=
  Real.sqrt ((y2 - y1) ^ 2 + (x2 - x1) ^ 2)

/-- Qualification filter of line 151: strict inequalities on both the
perpendicular offset and the along-transect coordinate. -/
noncomputable def qualifies (x1 y1 x2 y2 : ℝ) (p : ℝ × ℝ) : Prop :=
  -1 < (localCoords x1 y1 x2 y2 p.1 p.2).2 ∧
    (localCoords x1 y1 x2 y2 p.1 p.2).2 < 1 ∧
    0 < (localCoords x1 y1 x2 y2 p.1 p.2).1 ∧
    (localCoords x1 y1 x2 y2 p.1 p.2).1 < transectLen x1 y1 x2 y2

noncomputable instance qualifiesDec (x1 y1 x2 y2 : ℝ) (p : ℝ × ℝ) :
    Decidable (qualifies x1 y1 x2 y2 p) := by
  unfold qualifies; exact inferInstance

/-- Candidate shoreline fix of one transect (lines 151 to 162): among the
qualifying contour points, `np.argmin` of the local x coordinate (first
minimum in contour order); `none` when no point qualifies. -/
noncomputable def slCandidate (x1 y1 x2 y2 : ℝ) (pts : List (ℝ × ℝ)) :
    Option (ℝ × ℝ) :=
  (pts.filter fun p => decide (qualifies x1 y1 x2 y2 p)).argmin
    fun p => (localCoords x1 y1 x2 y2 p.1 p.2).1

/-- Modelled from the spec wording of Step 4, for comparison with the code:
points within a perpendicular tolerance of plus or minus 1 spacing unit and
with local x within the closed interval `[0, transect length]` qualify. -/
noncomputable def specQualifies (x1 y1 x2 y2 : ℝ) (p : ℝ × ℝ) : Prop :=
  |(localCoords x1 y1 x2 y2 p.1 p.2).2| ≤ 1 ∧
    0 ≤ (localCoords x1 y1 x2 y2 p.1 p.2).1 ∧
    (localCoords x1 y1 x2 y2 p.1 p.2).1 ≤ transectLen x1 y1 x2 y2

theorem cos_transectAngle (x1 y1 x2 y2 : ℝ)
    (hne : ¬(x2 - x1 = 0 ∧ y2 - y1 = 0)) :
    Real.cos (transectAngle x1 y1 x2 y2) =
      (x2 - x1) / Real.sqrt ((x2 - x1) ^ 2 + (y2 - y1) ^ 2) := by
  have hz : (⟨x2 - x1, y2 - y1⟩ : ℂ) ≠ 0 := by
    simpa [Complex.ext_iff] using hne
  rw [transectAngle, atan2, Complex.cos_arg hz, Complex.abs_apply,
    Complex.normSq_mk]
  ring_nf

theorem sin_transectAngle (x1 y1 x2 y2 : ℝ) :
    Real.sin (transectAngle x1 y1 x2 y2) =
      (y2 - y1) / Real.sqrt ((x2 - x1) ^ 2 + (y2 - y1) ^ 2) := by
  rw [transectAngle, atan2, Complex.sin_arg, Complex.abs_apply,
    Complex.normSq_mk]
  ring_nf

/-- C5 (amended): the contour points are rotated into the transect-local
frame (the landward endpoint maps to the origin and the seaward endpoint to
`(length, 0)` on the local x axis); a point qualifies exactly when its
perpendicular offset is strictly inside `(-1, 1)` and its local x strictly
inside `(0, length)`; the fix is a qualifying point of minimal local x, and
it is undefined exactly when no point qualifies. -/
theorem C5_transect_candidate (x1 y1 x2 y2 : ℝ) (pts : List (ℝ × ℝ))
    (hne : ¬(x2 - x1 = 0 ∧ y2 - y1 = 0)) :
    localCoords x1 y1 x2 y2 x1 y1 = (0, 0) ∧
    localCoords x1 y1 x2 y2 x2 y2 = (transectLen x1 y1 x2 y2, 0) ∧
    (slCandidate x1 y1 x2 y2 pts = none ↔
      ∀ p ∈ pts, ¬ qualifies x1 y1 x2 y2 p) ∧
    (∀ p, slCandidate x1 y1 x2 y2 pts = some p →
      p ∈ pts ∧ qualifies x1 y1 x2 y2 p ∧
      ∀ q ∈ pts, qualifies x1 y1 x2 y2 q →
        (localCoords x1 y1 x2 y2 p.1 p.2).1 ≤
          (localCoords x1 y1 x2 y2 q.1 q.2).1) := by
  have hpos : 0 < (x2 - x1) ^ 2 + (y2 - y1) ^ 2 := by
    rcases not_and_or.mp hne with h | h
    · positivity
    · positivity
  have hA : Real.sqrt ((x2 - x1) ^ 2 + (y2 - y1) ^ 2) > 0 :=
    Real.sqrt_pos.mpr hpos
  have hA2 : Real.sqrt ((x2 - x1) ^ 2 + (y2 - y1) ^ 2) ^ 2 =
      (x2 - x1) ^ 2 + (y2 - y1) ^ 2 := Real.sq_sqrt (le_of_lt hpos)
  refine ⟨?_, ?_, ?_, ?_⟩
  · simp [localCoords]
  · have hc := cos_transectAngle x1 y1 x2 y2 hne
    have hs := sin_transectAngle x1 y1 x2 y2
    have hlen : transectLen x1 y1 x2 y2 =
        Real.sqrt ((x2 - x1) ^ 2 + (y2 - y1) ^ 2) := by
      rw [transectLen]; ring_nf
    rw [localCoords, hc, hs, hlen, Prod.ext_iff]
    constructor
    · field_simp
      nlinarith [hA2]
    · field_simp
      ring
  · rw [slCandidate, List.argmin_eq_none, List.filter_eq_nil_iff]
    simp
  · intro p hp
    have hmem : p ∈ (pts.filter
        fun q => decide (qualifies x1 y1 x2 y2 q)).argmin
        (fun q => (localCoords x1 y1 x2 y2 q.1 q.2).1) :=
      Option.mem_def.mpr hp
    have hpf := List.argmin_mem hmem
    have := List.mem_filter.mp hpf
    refine ⟨this.1, of_decide_eq_true this.2, ?_⟩
    intro q hq hqual
    have hqf : q ∈ pts.filter
        fun r => decide (qualifies x1 y1 x2 y2 r) :=
      List.mem_filter.mpr ⟨hq, decide_eq_true hqual⟩
    exact List.le_of_mem_argmin
      (f := fun r => (localCoords x1 y1 x2 y2 r.1 r.2).1) hqf hmem

/-- C5 witness: for the transect from `(1, 2)` to `(11, 2)` and the single
contour point `(6, 5/2)` (local coordinates `(5, 1/2)`), the frame facts
hold and the candidate is that point. -/
theorem C5_transect_candidate_witness :
    (¬((11 : ℝ) - 1 = 0 ∧ (2 : ℝ) - 2 = 0)) ∧
    (localCoords 1 2 11 2 1 2 = (0, 0) ∧
    localCoords 1 2 11 2 11 2 = (transectLen 1 2 11 2, 0) ∧
    (slCandidate 1 2 11 2 [((6 : ℝ), (5/2 : ℝ))] = none ↔
      ∀ p ∈ [((6 : ℝ), (5/2 : ℝ))], ¬ qualifies 1 2 11 2 p) ∧
    (∀ p, slCandidate 1 2 11 2 [((6 : ℝ), (5/2 : ℝ))] = some p →
      p ∈ [((6 : ℝ), (5/2 : ℝ))] ∧ qualifies 1 2 11 2 p ∧
      ∀ q ∈ [((6 : ℝ), (5/2 : ℝ))], qualifies 1 2 11 2 q →
        (localCoords 1 2 11 2 p.1 p.2).1 ≤
          (localCoords 1 2 11 2 q.1 q.2).1)) :=
  ⟨by norm_num,
    C5_transect_candidate 1 2 11 2 [((6 : ℝ), (5/2 : ℝ))] (by norm_num)⟩

/-- C5 counterexample: for the transect from `(1, 2)` to `(11, 2)`, the
contour point `(1, 2)` sits exactly at the landward endpoint, so its local
x is 0, inside the closed interval `[0, 10]` demanded by the claim and
within the perpendicular tolerance; yet the code computes no fix, because
line 151 requires the strict inequality `0 < local x`. -/
theorem C5_closed_interval_fails :
    specQualifies 1 2 11 2 ((1 : ℝ), (2 : ℝ)) ∧
    slCandidate 1 2 11 2 [((1 : ℝ), (2 : ℝ))] = none := by
  have hloc : localCoords 1 2 11 2 1 2 = (0, 0) :=
    (C5_transect_candidate 1 2 11 2 [] (by norm_num)).1
  have hlen : transectLen 1 2 11 2 = 10 := by
    rw [transectLen]
    norm_num
    rw [show (100 : ℝ) = 10 ^ 2 by norm_num]
    exact Real.sqrt_sq (by norm_num)
  constructor
  · rw [specQualifies, hloc, hlen]
    norm_num
  · have h : ¬ qualifies 1 2 11 2 ((1 : ℝ), (2 : ℝ)) := by
      rw [qualifies, hloc]
      norm_num
    simp [slCandidate, List.filter, decide_eq_false h]

/-! ### Black-test artifact rejection (`slmapping.py`, lines 164 to 183)

The accepted candidate is probed 2 world-units further along the transect
axis (`test_rot = candidate_rot + [blacktest_tol, 0]`), unrotated through
the transpose of `anglemat` and translated back, then sampled in the
`RminusBdouble` field at the nearest raster index.  The candidate is kept
exactly when that index is inside the raster and
`not np.isclose(value, 0, atol=1e-6)`.  `np.isclose` with a NaN argument
is false, so a NaN field value (masked pixel or pixel outside the
transect-bounded polygon) keeps the candidate.  NaN is `none` here. -/

noncomputable def blackTestPoint (θ rx ry cx cy : ℝ) : ℝ × ℝ :=
  ((cx + 2) * Real.cos θ - cy * Real.sin θ + rx,
   (cx + 2) * Real.sin θ + cy * Real.cos θ + ry)

/-- Raster row of a world y coordinate, line 172 of the source. -/
noncomputable def probeRow (ylim0 ylim1 : ℝ) (h : ℕ) (y : ℝ) : ℤ :=
  roundHalfEvenR ((y - ylim0) / (ylim1 - ylim0) * ((h : ℝ) - 1))

/-- Raster column of a world x coordinate, line 174 of the source. -/
noncomputable def probeCol (xlim0 xlim1 : ℝ) (w : ℕ) (x : ℝ) : ℤ :=
  roundHalfEvenR ((x - xlim0) / (xlim1 - xlim0) * ((w : ℝ) - 1))

/-- Truth of `np.isclose(v, 0, atol = 1e-6)` (default `rtol` contributes
nothing against 0); false on NaN. -/
def isCloseZero (v : Option ℝ) : Prop :=
  ∃ r, v = some r ∧ |r| ≤ 1 / 1000000

/-- Acceptance condition of lines 177 to 183: the probe index is inside the
raster and its field value is not close to zero. -/
noncomputable def blackTestAccept (field : ℤ → ℤ → Option ℝ) (hgt wid : ℕ)
    (xlim0 xlim1 ylim0 ylim1 θ rx ry cx cy : ℝ) : Prop :=
  0 ≤ probeRow ylim0 ylim1 hgt (blackTestPoint θ rx ry cx cy).2 ∧
  probeRow ylim0 ylim1 hgt (blackTestPoint θ rx ry cx cy).2 < (hgt : ℤ) ∧
  0 ≤ probeCol xlim0 xlim1 wid (blackTestPoint θ rx ry cx cy).1 ∧
  probeCol xlim0 xlim1 wid (blackTestPoint θ rx ry cx cy).1 < (wid : ℤ) ∧
  ¬ isCloseZero (field
      (probeRow ylim0 ylim1 hgt (blackTestPoint θ rx ry cx cy).2)
      (probeCol xlim0 xlim1 wid (blackTestPoint θ rx ry cx cy).1))

/-- C10: the candidate is discarded exactly when the probe pixel 2
world-units seaward falls outside the raster bounds or its red-minus-blue
value is within `1e-6` of zero; and when the probe pixel is in bounds but
its value is NaN, the candidate is accepted. -/
theorem C10_black_test (field : ℤ → ℤ → Option ℝ) (hgt wid : ℕ)
    (xlim0 xlim1 ylim0 ylim1 θ rx ry cx cy : ℝ) :
    (¬ blackTestAccept field hgt wid xlim0 xlim1 ylim0 ylim1 θ rx ry cx cy ↔
      (¬ (0 ≤ probeRow ylim0 ylim1 hgt (blackTestPoint θ rx ry cx cy).2 ∧
          probeRow ylim0 ylim1 hgt (blackTestPoint θ rx ry cx cy).2 < (hgt : ℤ) ∧
          0 ≤ probeCol xlim0 xlim1 wid (blackTestPoint θ rx ry cx cy).1 ∧
          probeCol xlim0 xlim1 wid (blackTestPoint θ rx ry cx cy).1 < (wid : ℤ)) ∨
        ∃ r, field (probeRow ylim0 ylim1 hgt (blackTestPoint θ rx ry cx cy).2)
            (probeCol xlim0 xlim1 wid (blackTestPoint θ rx ry cx cy).1) =
            some r ∧ |r| ≤ 1 / 1000000)) ∧
    ((0 ≤ probeRow ylim0 ylim1 hgt (blackTestPoint θ rx ry cx cy).2 ∧
        probeRow ylim0 ylim1 hgt (blackTestPoint θ rx ry cx cy).2 < (hgt : ℤ) ∧
        0 ≤ probeCol xlim0 xlim1 wid (blackTestPoint θ rx ry cx cy).1 ∧
        probeCol xlim0 xlim1 wid (blackTestPoint θ rx ry cx cy).1 < (wid : ℤ)) →
      field (probeRow ylim0 ylim1 hgt (blackTestPoint θ rx ry cx cy).2)
          (probeCol xlim0 xlim1 wid (blackTestPoint θ rx ry cx cy).1) = none →
      blackTestAccept field hgt wid xlim0 xlim1 ylim0 ylim1 θ rx ry cx cy) := by
  constructor
  · rw [blackTestAccept, isCloseZero]
    constructor
    · intro hna
      by_cases hb : 0 ≤ probeRow ylim0 ylim1 hgt (blackTestPoint θ rx ry cx cy).2 ∧
          probeRow ylim0 ylim1 hgt (blackTestPoint θ rx ry cx cy).2 < (hgt : ℤ) ∧
          0 ≤ probeCol xlim0 xlim1 wid (blackTestPoint θ rx ry cx cy).1 ∧
          probeCol xlim0 xlim1 wid (blackTestPoint θ rx ry cx cy).1 < (wid : ℤ)
      · obtain ⟨hA, hB, hC, hD⟩ := hb
        right
        by_contra hne
        exact hna ⟨hA, hB, hC, hD, hne⟩
      · left
        exact hb
    · rintro (hb | hcl) ⟨hA, hB, hC, hD, hn⟩
      · exact hb ⟨hA, hB, hC, hD⟩
      · exact hn hcl
  · intro hb hnone
    rw [blackTestAccept]
    refine ⟨hb.1, hb.2.1, hb.2.2.1, hb.2.2.2, ?_⟩
    rw [hnone, isCloseZero]
    simp

/-- C10 witness: with a 3 by 3 raster over `[0, 2] x [0, 2]`, angle 0,
rotation point at the origin and candidate local coordinates `(-1, 1)`,
the probe lands on the in-bounds index `(1, 1)`; a field that is NaN there
accepts the candidate. -/
theorem C10_black_test_witness :
    (0 ≤ probeRow 0 2 3 (blackTestPoint 0 0 0 (-1) 1).2 ∧
      probeRow 0 2 3 (blackTestPoint 0 0 0 (-1) 1).2 < (3 : ℤ) ∧
      0 ≤ probeCol 0 2 3 (blackTestPoint 0 0 0 (-1) 1).1 ∧
      probeCol 0 2 3 (blackTestPoint 0 0 0 (-1) 1).1 < (3 : ℤ)) ∧
    blackTestAccept (fun _ _ => none) 3 3 0 2 0 2 0 0 0 (-1) 1 := by
  have hpt : blackTestPoint 0 0 0 (-1) 1 = (1, 1) := by
    rw [blackTestPoint]
    norm_num
  have hrow : probeRow 0 2 3 (blackTestPoint 0 0 0 (-1) 1).2 = 1 := by
    rw [hpt, probeRow, roundHalfEvenR]
    norm_num
  have hcol : probeCol 0 2 3 (blackTestPoint 0 0 0 (-1) 1).1 = 1 := by
    rw [hpt, probeCol, roundHalfEvenR]
    norm_num
  have hb : (0 ≤ probeRow 0 2 3 (blackTestPoint 0 0 0 (-1) 1).2 ∧
      probeRow 0 2 3 (blackTestPoint 0 0 0 (-1) 1).2 < (3 : ℤ) ∧
      0 ≤ probeCol 0 2 3 (blackTestPoint 0 0 0 (-1) 1).1 ∧
      probeCol 0 2 3 (blackTestPoint 0 0 0 (-1) 1).1 < (3 : ℤ)) := by
    rw [hrow, hcol]
    norm_num
  exact ⟨hb, (C10_black_test (fun _ _ => none) 3 3 0 2 0 2 0 0 0 (-1) 1).2
    hb rfl⟩

/-! ### Pinhole projection (`rectification.py`, `findUV6DOF`, lines 92 to 104)

`findUV6DOF` builds `K = [[fx, 0, c0U], [0, -fy, c0V], [0, 0, 1]]`,
`R = angles2R(beta3, beta4, beta5)`, `P = K R [I | -C]` normalized by
`P[2,3]`, applies `P` to the homogeneous world point and divides by the
third homogeneous coordinate.  For a single world point `X` this gives the
expression below; `(P [X;1])_i = (K R X - K R C)_i / P23` with
`P23 = -(K R C)_2`. -/

noncomputable def Kmat (fx fy c0U c0V : ℝ) : Matrix (Fin 3) (Fin 3) ℝ :=
  !![fx, 0, c0U; 0, -fy, c0V; 0, 0, 1]

noncomputable def projectUV (fx fy c0U c0V : ℝ) (c : Fin 3 → ℝ)
    (a t s : ℝ) (X : Fin 3 → ℝ) : ℝ × ℝ :=
  let KR := Kmat fx fy c0U c0V * angles2R a t s
  let denom := -(KR.mulVec c 2)
  let hom : Fin 3 → ℝ := fun i => (KR.mulVec X i - KR.mulVec c i) / denom
  (hom 0 / hom 2, hom 1 / hom 2)

noncomputable def findUV6DOF (fx fy c0U c0V b0 b1 b2 b3 b4 b5 : ℝ)
    (X : Fin 3 → ℝ) : ℝ × ℝ :=
  projectUV fx fy c0U c0V ![b0, b1, b2] b3 b4 b5 X

theorem Kmat_mulVec_e3 (fx fy c0U c0V : ℝ) :
    (Kmat fx fy c0U c0V).mulVec ![0, 0, 1] = ![c0U, c0V, 1] := by
  funext i
  fin_cases i <;>
    simp [Kmat, Matrix.mulVec, Matrix.dotProduct, Fin.sum_univ_three]

theorem Kmat_mulVec_two (fx fy c0U c0V : ℝ) (w : Fin 3 → ℝ) :
    (Kmat fx fy c0U c0V).mulVec w 2 = w 2 := by
  simp [Kmat, Matrix.mulVec, Matrix.dotProduct, Fin.sum_univ_three]

/-- C9: for every pose (position `(b0, b1, b2)`, angles `b3, b4, b5`, focal
lengths `fx, fy`) a world point lying exactly on the optical axis at unit
depth (its camera coordinates `R (X - C)` are `(0, 0, 1)`) projects under
the projection `P = K R [I | -C]` of the solver to the principal point
`(c0U, c0V)`, provided the normalizer `P[2,3]` is nonzero. -/
theorem C9_principal_point (fx fy c0U c0V b0 b1 b2 b3 b4 b5 : ℝ)
    (X : Fin 3 → ℝ)
    (hax : (angles2R b3 b4 b5).mulVec (X - ![b0, b1, b2]) = ![0, 0, 1])
    (hd : (angles2R b3 b4 b5).mulVec ![b0, b1, b2] 2 ≠ 0) :
    findUV6DOF fx fy c0U c0V b0 b1 b2 b3 b4 b5 X = (c0U, c0V) := by
  rw [findUV6DOF, projectUV]
  have hsub : ∀ i, ((Kmat fx fy c0U c0V * angles2R b3 b4 b5).mulVec X i -
      (Kmat fx fy c0U c0V * angles2R b3 b4 b5).mulVec ![b0, b1, b2] i) =
      ![c0U, c0V, (1 : ℝ)] i := by
    intro i
    have h1 : (Kmat fx fy c0U c0V * angles2R b3 b4 b5).mulVec X -
        (Kmat fx fy c0U c0V * angles2R b3 b4 b5).mulVec ![b0, b1, b2] =
        ![c0U, c0V, 1] := by
      rw [← Matrix.mulVec_sub, ← Matrix.mulVec_mulVec, hax, Kmat_mulVec_e3]
    exact congrFun h1 i
  have hden : -((Kmat fx fy c0U c0V * angles2R b3 b4 b5).mulVec ![b0, b1, b2] 2) ≠ 0 := by
    rw [← Matrix.mulVec_mulVec, Kmat_mulVec_two]
    simpa using hd
  have hd2 : (Kmat fx fy c0U c0V * angles2R b3 b4 b5).mulVec ![b0, b1, b2] 2 ≠ 0 :=
    fun h => hden (by rw [h, neg_zero])
  simp only [hsub]
  rw [Prod.ext_iff]
  constructor <;>
    · simp only [Matrix.cons_val_zero, Matrix.cons_val_one, Matrix.head_cons,
        Matrix.cons_val_two, Matrix.tail_cons]
      field_simp

/-- C9 witness: camera at `(0, 0, 1)` with all angles 0 (so the optical
axis points straight down), principal point `(2, 3)`: the world origin has
camera coordinates `(0, 0, 1)` and projects exactly to `(2, 3)`. -/
theorem C9_principal_point_witness :
    ((angles2R 0 0 0).mulVec (![0, 0, 0] - ![0, 0, 1]) = ![0, 0, 1]) ∧
    ((angles2R 0 0 0).mulVec ![0, 0, 1] 2 ≠ 0) ∧
    findUV6DOF 1 1 2 3 0 0 1 0 0 0 ![0, 0, 0] = (2, 3) := by
  have hax : (angles2R 0 0 0).mulVec (![0, 0, 0] - ![(0 : ℝ), 0, 1]) = ![0, 0, 1] := by
    funext i
    fin_cases i <;>
      simp [angles2R, Matrix.mulVec, Matrix.dotProduct, Fin.sum_univ_three]
  have hd : (angles2R 0 0 0).mulVec ![(0 : ℝ), 0, 1] 2 ≠ 0 := by
    simp [angles2R, Matrix.mulVec, Matrix.dotProduct, Fin.sum_univ_three]
  exact ⟨hax, hd, C9_principal_point 1 1 2 3 0 0 1 0 0 0 ![0, 0, 0] hax hd⟩

/-! ### Focal-length grid search (`rectification.py`, lines 120 to 155)

The bounds `fx = 0.5 * NU / tan(FOV * pi / 360)` at the two field-of-view
entries are snapped to the nearest multiple of 5 by nearest-neighbour
interpolation on the grid `arange(5, 500005, 5)` (scipy `interp1d` with
`kind = nearest` rounds half down), and candidates are
`arange(fx_min, fx_max + 5, 5)`.  Each candidate scores
`mean((UV_true - UV_pred)**2) * (2 nGCP) / (2 nGCP - 3)` where `UV_pred`
is `findUV3DOF` at the angles returned by `curve_fit` (the external scipy
optimizer, abstracted as `fit`).  The chosen `fx` is `np.argmin` of the
scores, and the angles are refit once more at that `fx`. -/

noncomputable def snap5 (x : ℝ) : ℝ := 5 * ((⌈x / 5 - 1/2⌉ : ℤ) : ℝ)

noncomputable def fxBound (nu fov : ℝ) : ℝ :=
  0.5 * nu / Real.tan (fov * Real.pi / 360)

/-- Model of `np.arange(lo, hi + 5, 5)`: `ceil((hi + 5 - lo) / 5)` entries
starting at `lo` with step 5. -/
noncomputable def fxCandidates (lo hi : ℝ) : List ℝ :=
  (List.range (⌈(hi + 5 - lo) / 5⌉.toNat)).map fun (k : ℕ) => lo + 5 * (k : ℝ)

/-- Projection of a GCP list by `findUV3DOF`: the concatenated layout
`[u_1 .. u_n, v_1 .. v_n]` matching `np.concatenate((UV[0,:], UV[1,:]))`. -/
noncomputable def findUV3DOF (fx fy c0U c0V : ℝ) (c : Fin 3 → ℝ)
    (angles : ℝ × ℝ × ℝ) (xyz : List (Fin 3 → ℝ)) : List ℝ :=
  (xyz.map fun X =>
      (projectUV fx fy c0U c0V c angles.1 angles.2.1 angles.2.2 X).1) ++
    (xyz.map fun X =>
      (projectUV fx fy c0U c0V c angles.1 angles.2.1 angles.2.2 X).2)

/-- Candidate score, line 146: bias-corrected mean squared error. -/
noncomputable def mseScore (tru pred : List ℝ) (n : ℕ) : ℝ :=
  ((List.zipWith (fun a b => (a - b) ^ 2) tru pred).sum / (tru.length : ℝ)) *
    ((2 * (n : ℝ)) / (2 * (n : ℝ) - 3))

noncomputable def scoreAt (fit : ℝ → ℝ × ℝ × ℝ) (c0U c0V : ℝ)
    (c : Fin 3 → ℝ) (xyz : List (Fin 3 → ℝ)) (tru : List ℝ) (n : ℕ)
    (f : ℝ) : ℝ :=
  mseScore tru (findUV3DOF f f c0U c0V c (fit f) xyz) n

/-- Lines 149 to 153: `argmin` over the candidate scores, then one more
fit at the winning focal length. -/
noncomputable def poseSearch (fit : ℝ → ℝ × ℝ × ℝ) (c0U c0V : ℝ)
    (c : Fin 3 → ℝ) (xyz : List (Fin 3 → ℝ)) (tru : List ℝ) (n : ℕ)
    (cands : List ℝ) : Option (ℝ × (ℝ × ℝ × ℝ)) :=
  (cands.argmin (scoreAt fit c0U c0V c xyz tru n)).map fun f => (f, fit f)

theorem snap5_near (x : ℝ) : x - 5/2 ≤ snap5 x ∧ snap5 x < x + 5/2 := by
  have h1 : x / 5 - 1/2 ≤ ((⌈x / 5 - 1/2⌉ : ℤ) : ℝ) := Int.le_ceil _
  have h2 : ((⌈x / 5 - 1/2⌉ : ℤ) : ℝ) < (x / 5 - 1/2) + 1 :=
    Int.ceil_lt_add_one _
  rw [snap5]
  constructor <;> linarith

theorem fxCandidates_mem (i j : ℤ) (x : ℝ) :
    x ∈ fxCandidates (5 * (i : ℝ)) (5 * (j : ℝ)) ↔
      ∃ k : ℕ, x = 5 * (i : ℝ) + 5 * (k : ℝ) ∧ x ≤ 5 * (j : ℝ) := by
  have hsteps : ⌈((5 * (j : ℝ) + 5 - 5 * (i : ℝ)) / 5)⌉ = j + 1 - i := by
    rw [show (5 * (j : ℝ) + 5 - 5 * (i : ℝ)) / 5 = ((j + 1 - i : ℤ) : ℝ) by
      push_cast; ring]
    exact Int.ceil_intCast _
  rw [fxCandidates, hsteps]
  constructor
  · intro hx
    rw [List.mem_map] at hx
    obtain ⟨k, hk, hkx⟩ := hx
    rw [List.mem_range] at hk
    have hkz : (k : ℤ) < j + 1 - i := Int.lt_toNat.mp hk
    refine ⟨k, hkx.symm, ?_⟩
    have h5 : (i : ℝ) + (k : ℝ) ≤ (j : ℝ) := by
      have hz : (i + k : ℤ) ≤ j := by omega
      exact_mod_cast hz
    rw [← hkx]
    linarith
  · rintro ⟨k, hkx, hle⟩
    have h5 : (i : ℝ) + (k : ℝ) ≤ (j : ℝ) := by
      rw [hkx] at hle
      linarith
    have hkz : (i + (k : ℤ)) ≤ j := by exact_mod_cast h5
    rw [List.mem_map]
    refine ⟨k, ?_, hkx.symm⟩
    rw [List.mem_range]
    exact Int.lt_toNat.mpr (by omega)

/-- C4: the pose solver evaluates focal-length candidates on a step-5 grid
whose endpoints are the bounds `0.5 * NU / tan(FOV/2 in radians)` at the
two field-of-view entries, snapped to the grid (within 5/2 of the exact
bounds); every candidate scores the mean squared reprojection error times
`(2 nGCP) / (2 nGCP - 3)`; the returned pose uses a candidate with minimal
score (the first such, as `np.argmin`), with the angles refit at that
candidate. -/
theorem C4_focal_grid_search (nu fov0 fov1 : ℝ) (fit : ℝ → ℝ × ℝ × ℝ)
    (c0U c0V : ℝ) (c : Fin 3 → ℝ) (xyz : List (Fin 3 → ℝ)) (tru : List ℝ)
    (n : ℕ)
    (hord : snap5 (fxBound nu fov1) ≤ snap5 (fxBound nu fov0))
    (hlen : tru.length = 2 * n) :
    (∀ x, x ∈ fxCandidates (snap5 (fxBound nu fov1)) (snap5 (fxBound nu fov0)) ↔
      ∃ k : ℕ, x = snap5 (fxBound nu fov1) + 5 * (k : ℝ) ∧
        x ≤ snap5 (fxBound nu fov0)) ∧
    (fxBound nu fov1 - 5/2 ≤ snap5 (fxBound nu fov1) ∧
      snap5 (fxBound nu fov1) < fxBound nu fov1 + 5/2 ∧
      fxBound nu fov0 - 5/2 ≤ snap5 (fxBound nu fov0) ∧
      snap5 (fxBound nu fov0) < fxBound nu fov0 + 5/2) ∧
    (∀ f, scoreAt fit c0U c0V c xyz tru n f =
      ((List.zipWith (fun a b => (a - b) ^ 2) tru
          (findUV3DOF f f c0U c0V c (fit f) xyz)).sum / (2 * (n : ℝ))) *
        ((2 * (n : ℝ)) / (2 * (n : ℝ) - 3))) ∧
    (∃ m, poseSearch fit c0U c0V c xyz tru n
        (fxCandidates (snap5 (fxBound nu fov1)) (snap5 (fxBound nu fov0))) =
          some (m, fit m) ∧
      m ∈ fxCandidates (snap5 (fxBound nu fov1)) (snap5 (fxBound nu fov0)) ∧
      ∀ g ∈ fxCandidates (snap5 (fxBound nu fov1)) (snap5 (fxBound nu fov0)),
        scoreAt fit c0U c0V c xyz tru n m ≤
          scoreAt fit c0U c0V c xyz tru n g) := by
  have hlo : snap5 (fxBound nu fov1) =
      5 * ((⌈fxBound nu fov1 / 5 - 1/2⌉ : ℤ) : ℝ) := rfl
  have hhi : snap5 (fxBound nu fov0) =
      5 * ((⌈fxBound nu fov0 / 5 - 1/2⌉ : ℤ) : ℝ) := rfl
  have hmem : ∀ x,
      x ∈ fxCandidates (snap5 (fxBound nu fov1)) (snap5 (fxBound nu fov0)) ↔
        ∃ k : ℕ, x = snap5 (fxBound nu fov1) + 5 * (k : ℝ) ∧
          x ≤ snap5 (fxBound nu fov0) := by
    intro x
    rw [hlo, hhi]
    exact fxCandidates_mem _ _ x
  refine ⟨hmem, ⟨(snap5_near _).1, (snap5_near _).2,
    (snap5_near _).1, (snap5_near _).2⟩, ?_, ?_⟩
  · intro f
    rw [scoreAt, mseScore, hlen]
    push_cast
    ring
  · have hnil : fxCandidates (snap5 (fxBound nu fov1))
        (snap5 (fxBound nu fov0)) ≠ [] := by
      intro hempty
      have hin : snap5 (fxBound nu fov1) ∈
          fxCandidates (snap5 (fxBound nu fov1)) (snap5 (fxBound nu fov0)) :=
        (hmem _).mpr ⟨0, by norm_num, hord⟩
      rw [hempty] at hin
      exact absurd hin (List.not_mem_nil _)
    rcases hargm : (fxCandidates (snap5 (fxBound nu fov1))
        (snap5 (fxBound nu fov0))).argmin
        (scoreAt fit c0U c0V c xyz tru n) with _ | m
    · exact absurd (List.argmin_eq_none.mp hargm) hnil
    · have hmm : m ∈ (fxCandidates (snap5 (fxBound nu fov1))
          (snap5 (fxBound nu fov0))).argmin
          (scoreAt fit c0U c0V c xyz tru n) := by
        rw [hargm]; rfl
      refine ⟨m, ?_, List.argmin_mem hmm, ?_⟩
      · rw [poseSearch, hargm]
        rfl
      · intro g hg
        exact List.le_of_mem_argmin hg hmm

/-- C4 witness: `NU = 100`, both field-of-view bounds 90 degrees, a constant
external fit and 2 GCPs with a 4-entry pixel vector satisfy both hypotheses,
and the grid, scoring and selection facts follow. -/
theorem C4_focal_grid_search_witness :
    (snap5 (fxBound 100 90) ≤ snap5 (fxBound 100 90)) ∧
    (([0, 0, 0, 0] : List ℝ).length = 2 * 2) ∧
    ((∀ x, x ∈ fxCandidates (snap5 (fxBound 100 90)) (snap5 (fxBound 100 90)) ↔
      ∃ k : ℕ, x = snap5 (fxBound 100 90) + 5 * (k : ℝ) ∧
        x ≤ snap5 (fxBound 100 90)) ∧
    (fxBound 100 90 - 5/2 ≤ snap5 (fxBound 100 90) ∧
      snap5 (fxBound 100 90) < fxBound 100 90 + 5/2 ∧
      fxBound 100 90 - 5/2 ≤ snap5 (fxBound 100 90) ∧
      snap5 (fxBound 100 90) < fxBound 100 90 + 5/2) ∧
    (∀ f, scoreAt (fun _ => (0, 0, 0)) 0 0 ![0, 0, 0] [] [0, 0, 0, 0] 2 f =
      ((List.zipWith (fun a b => (a - b) ^ 2) [0, 0, 0, 0]
          (findUV3DOF f f 0 0 ![0, 0, 0] ((fun _ => ((0 : ℝ), (0 : ℝ), (0 : ℝ))) f) [])).sum /
          (2 * ((2 : ℕ) : ℝ))) *
        ((2 * ((2 : ℕ) : ℝ)) / (2 * ((2 : ℕ) : ℝ) - 3))) ∧
    (∃ m, poseSearch (fun _ => (0, 0, 0)) 0 0 ![0, 0, 0] [] [0, 0, 0, 0] 2
        (fxCandidates (snap5 (fxBound 100 90)) (snap5 (fxBound 100 90))) =
          some (m, (0, 0, 0)) ∧
      m ∈ fxCandidates (snap5 (fxBound 100 90)) (snap5 (fxBound 100 90)) ∧
      ∀ g ∈ fxCandidates (snap5 (fxBound 100 90)) (snap5 (fxBound 100 90)),
        scoreAt (fun _ => (0, 0, 0)) 0 0 ![0, 0, 0] [] [0, 0, 0, 0] 2 m ≤
          scoreAt (fun _ => (0, 0, 0)) 0 0 ![0, 0, 0] [] [0, 0, 0, 0] 2 g)) :=
  ⟨le_refl _, by simp,
    C4_focal_grid_search 100 90 90 (fun _ => (0, 0, 0)) 0 0 ![0, 0, 0] []
      [0, 0, 0, 0] 2 (le_refl _) (by simp)⟩
